import Mathlib

/-!
Shallow embedding of `src/fetch.py` (coordsToSVGMap): the road-fragment
merge pass (`Road`, `set_road_width`, `merge_road_into_list`, `processRoads`),
the equirectangular projection with 3-decimal rounding (`fetchAll`,
`citiesToSVG`), and the distance-banding classifier described by the spec.

Python floats are modelled as exact rationals (`ℚ`); the claims under study
depend on exact equality of rounded coordinates and on a small fixed table of
thickness values, not on binary floating-point artefacts.  Mutation of the
accumulation lists is modelled by explicit list-returning functions; an
uncaught Python exception (KeyError / IndexError) is modelled as `none`.
-/

namespace CoordsToSVGMap

/-- A projected planar point `(x, y)`: a pair of Python floats, modelled as
rationals. -/
abbrev Point := ℚ × ℚ

/-- The `Road` dataclass of `src/fetch.py` (lines 17-23).  The Python field
`end` is spelled `end_` because `end` is a Lean keyword. -/
structure Road where
  start : Point
  end_ : Point
  thickness : ℚ
  nodes : List Point
  color : String
deriving DecidableEq

/-- The function `set_road_width` (src/fetch.py lines 27-36): the fixed table mapping the
`highway` tag to the wide-stroke thickness; unmapped categories yield 0. -/
def set_road_width (highway : String) : ℚ :=
  if highway = "motorway" then 6.2
  else if highway = "trunk" then 5.7
  else if highway = "primary" then 5.7
  else if highway = "secondary" then 3.75
  else if highway = "tertiary" then 3
  else if highway = "unclassified" then 1
  else if highway = "residential" then 1
  else 0

/-- Python's built-in `max` on two floats: returns the first argument when it
is at least the second (spelled out so that concrete instances reduce in the
kernel). -/
def pymax (a b : ℚ) : ℚ := if b ≤ a then a else b

/-- One iteration of the loop body of `merge_road_into_list`
(src/fetch.py lines 263-293) against a single `existing` road: `none` means
the loop continues (thickness mismatch or no endpoint case matched), `some m`
means one of the four endpoint cases fired and mutated `existing` into `m`,
after which the Python function returns `True`. -/
def tryMergeRoad (new_road existing : Road) : Option Road :=
  if existing.thickness ≠ new_road.thickness then none
  else if new_road.start = existing.end_ then
    some { existing with nodes := existing.nodes ++ new_road.nodes, end_ := new_road.end_ }
  else if new_road.end_ = existing.start then
    some { existing with nodes := new_road.nodes ++ existing.nodes, start := new_road.start }
  else if new_road.end_ = existing.end_ then
    some { existing with nodes := existing.nodes ++ new_road.nodes.reverse, end_ := new_road.start }
  else if new_road.start = existing.start then
    some { existing with nodes := new_road.nodes.reverse ++ existing.nodes, start := new_road.end_ }
  else none

/-- The function `merge_road_into_list` (src/fetch.py lines 256-295).  The Python function
scans `road_list` in order, mutates the first entry that matches on one of the
four endpoint cases and returns `True`; otherwise it returns `False` leaving
the list untouched.  Here `some l'` is the mutated list on a `True` return and
`none` is a `False` return. -/
def merge_road_into_list (new_road : Road) : List Road → Option (List Road)
  | [] => none
  | existing :: rest =>
    match tryMergeRoad new_road existing with
    | some merged => some (merged :: rest)
    | none => (merge_road_into_list new_road rest).map (fun l => existing :: l)

/-- The caller pattern around `merge_road_into_list` (src/fetch.py
lines 247-251): if the merge reports `False` the new road is appended as a
standalone entry. -/
def mergeStep (road_list : List Road) (new_road : Road) : List Road :=
  match merge_road_into_list new_road road_list with
  | some l => l
  | none => road_list ++ [new_road]

/-- One full accumulation pass over a sequence of already-styled fragments,
starting from the empty list — the per-style loop of `processRoads`
(src/fetch.py lines 231-251 restricted to a single style). -/
def accumulateRoads (frags : List Road) : List Road :=
  frags.foldl mergeStep []

/-- A highway element as it reaches `processRoads` from `fetchAll`: its
`tags["highway"]` value and its `projected` node list.  `projected = none`
models an element that never got a `"projected"` key in `fetchAll` (feature
with no `"geometry"`), so that `elem["projected"]` raises KeyError. -/
structure HighwayElem where
  highway : String
  projected : Option (List Point)
deriving DecidableEq

/-- The loop of `processRoads` (src/fetch.py lines 231-251), carrying the
`black` and `white` accumulation lists.  `none` models an uncaught exception:
KeyError when the `"projected"` key is missing (read before the width check),
or IndexError from `geom[0]` when the projected geometry is empty and the
width is nonzero. -/
def processRoadsAux : List HighwayElem → List Road → List Road → Option (List Road × List Road)
  | [], black, white => some (black, white)
  | e :: rest, black, white =>
    match e.projected with
    | none => none
    | some geom =>
      if set_road_width e.highway = 0 then processRoadsAux rest black white
      else
        match geom with
        | [] => none
        | p :: ps =>
          let ed := (p :: ps).getLast (List.cons_ne_nil p ps)
          let new_black : Road :=
            ⟨p, ed, set_road_width e.highway, p :: ps, "black"⟩
          let new_white : Road :=
            ⟨p, ed, pymax (set_road_width e.highway - 1) 0.7, p :: ps, "white"⟩
          processRoadsAux rest (mergeStep black new_black) (mergeStep white new_white)

/-- The function `processRoads` (src/fetch.py lines 227-253): runs the two accumulation
passes and returns `black + white`. -/
def processRoads (elems : List HighwayElem) : Option (List Road) :=
  (processRoadsAux elems [] []).map (fun bw => bw.1 ++ bw.2)

/-- The per-element expansion step of `processRoads` (src/fetch.py
lines 232-245) in isolation: outer `none` is an uncaught exception,
`some none` is a dropped fragment (width 0), `some (some (nb, nw))` are the
wide ("black") and inset ("white") styled segments built from the element. -/
def expandElem (e : HighwayElem) : Option (Option (Road × Road)) :=
  match e.projected with
  | none => none
  | some geom =>
    if set_road_width e.highway = 0 then some none
    else
      match geom with
      | [] => none
      | p :: ps =>
        let ed := (p :: ps).getLast (List.cons_ne_nil p ps)
        some (some (⟨p, ed, set_road_width e.highway, p :: ps, "black"⟩,
                    ⟨p, ed, pymax (set_road_width e.highway - 1) 0.7, p :: ps, "white"⟩))

/-- Expansion of a whole element sequence: the (black, white) fragment pairs
in input order, `none` when any element raises. -/
def expandList : List HighwayElem → Option (List (Road × Road))
  | [] => some []
  | e :: rest =>
    match expandElem e with
    | none => none
    | some none => expandList rest
    | some (some pr) => (expandList rest).map (fun l => pr :: l)

/-- The node-endpoint invariant of a `Road` (spec §3): `nodes` is nonempty,
its first node is `startPoint` and its last node is `endPoint`. -/
def WFRoad (r : Road) : Prop :=
  r.nodes ≠ [] ∧ r.nodes.head? = some r.start ∧ r.nodes.getLast? = some r.end_

instance (r : Road) : Decidable (WFRoad r) := by
  unfold WFRoad
  infer_instance

/-- Reference latitude of the projection: midpoint of the bounding-box
latitudes (src/fetch.py lines 6-10). -/
def lat0 : ℚ := (49.7251436 + 50.4799014) / 2

/-- Reference longitude of the projection (src/fetch.py lines 6-10). -/
def lon0 : ℚ := (11.9092547 + 12.9414544) / 2

/-- Earth radius constant (src/fetch.py line 12). -/
def Rearth : ℚ := 6371000

/-- Linear scale factor (src/fetch.py line 13). -/
def SCALE : ℚ := 0.001

/-- Python's `round(q, 3)`: rounding to 3 decimal places.  Python rounds
half-to-even on binary floats; the rational model rounds half away from the
even choice only at exact `.0005` ties, which none of the claims touch. -/
def round3 (q : ℚ) : ℚ := (round (q * 1000) : ℚ) / 1000

/-- The projection of `fetchAll` (src/fetch.py lines 92-95): both planar
coordinates are rounded to 3 decimal places.  `cosLat0` stands for the fixed
transcendental factor `math.cos(math.radians(lat0))`, carried as an abstract
parameter. -/
def projectPoint (cosLat0 lat lon : ℚ) : Point :=
  (round3 ((lon - lon0) * cosLat0 * Rearth * SCALE),
   round3 ((lat - lat0) * Rearth * (-1) * SCALE))

/-- The marker coordinates of `citiesToSVG` (src/fetch.py lines 383-384):
the same projection formula, but with no rounding applied. -/
def cityPoint (cosLat0 lat lon : ℚ) : Point :=
  ((lon - lon0) * cosLat0 * Rearth * SCALE,
   (lat - lat0) * Rearth * (-1) * SCALE)

/-- A rational is a 3-decimal value exactly when rounding to 3 decimals
leaves it unchanged. -/
def IsRound3 (q : ℚ) : Prop := round3 q = q

/-- Modelled from the spec: `band(distance, bandWidthKm) = floor(distance /
bandWidthKm)` (§4.2).  The distance-banding classifier is described by the
spec but absent from `src/fetch.py` (whose `citiesToSVG` writes a fixed
fill color). -/
def band (distance bandWidthKm : ℚ) : ℤ := ⌊distance / bandWidthKm⌋

/-- Modelled from the spec: the caller alternates between two marker colors
by testing `band` parity (§4.2). -/
def bandColor (first second : String) (b : ℤ) : String :=
  if b % 2 = 0 then first else second

/-- Modelled from the spec: `nearestDistance` returns the minimum
great-circle distance over a non-empty reference set (§4.2), here taken over
the list of per-reference distances with first element `d0`. -/
def nearestDistance (d0 : ℚ) (ds : List ℚ) : ℚ := ds.foldl min d0

/-! ## Helper lemmas -/

lemma merge_nil (new_road : Road) : merge_road_into_list new_road [] = none := rfl

lemma mergeStep_nil (new_road : Road) : mergeStep [] new_road = [new_road] := rfl

lemma accumulateRoads_pair (A B : Road) :
    accumulateRoads [A, B] = mergeStep [A] B := by
  simp [accumulateRoads, mergeStep, merge_nil]

/-- A `False` return of `merge_road_into_list` means no entry matched. -/
lemma merge_none_spec (new_road : Road) :
    ∀ l : List Road, merge_road_into_list new_road l = none →
      ∀ r ∈ l, tryMergeRoad new_road r = none
  | [], _, r, hr => absurd hr (List.not_mem_nil r)
  | a :: as, h, r, hr => by
    unfold merge_road_into_list at h
    cases hta : tryMergeRoad new_road a with
    | some m => rw [hta] at h; exact absurd h (by simp)
    | none =>
      rw [hta] at h
      rcases List.mem_cons.mp hr with rfl | hr'
      · exact hta
      · exact merge_none_spec new_road as (by
          cases hm : merge_road_into_list new_road as with
          | none => rfl
          | some l => rw [hm] at h; exact absurd h (by simp)) r hr'

/-- A `True` return of `merge_road_into_list` mutates the first matching
entry in place and leaves everything else alone. -/
lemma merge_some_spec (new_road : Road) :
    ∀ l l' : List Road, merge_road_into_list new_road l = some l' →
      ∃ i, ∃ hi : i < l.length, ∃ m,
        tryMergeRoad new_road (l.get ⟨i, hi⟩) = some m ∧ l' = l.set i m
  | [], l', h => by simp [merge_road_into_list] at h
  | a :: as, l', h => by
    unfold merge_road_into_list at h
    cases hta : tryMergeRoad new_road a with
    | some m =>
      rw [hta] at h
      refine ⟨0, by simp, m, hta, ?_⟩
      simp at h
      simp [← h]
    | none =>
      rw [hta] at h
      cases hm : merge_road_into_list new_road as with
      | none => rw [hm] at h; exact absurd h (by simp)
      | some l'' =>
        rw [hm] at h
        simp at h
        obtain ⟨i, hi, m, htm, hset⟩ := merge_some_spec new_road as l'' hm
        exact ⟨i + 1, by simpa using Nat.succ_lt_succ hi, m, htm, by simp [← h, hset]⟩

/-- Each of the four merge cases keeps `nodes[0] = start`,
`nodes[-1] = end` and nonemptiness. -/
lemma WFRoad_tryMerge {new_road existing merged : Road}
    (hn : WFRoad new_road) (he : WFRoad existing)
    (h : tryMergeRoad new_road existing = some merged) : WFRoad merged := by
  obtain ⟨hn0, hnh, hnl⟩ := hn
  obtain ⟨he0, heh, hel⟩ := he
  have hrev0 : new_road.nodes.reverse ≠ [] := by simpa using hn0
  unfold tryMergeRoad at h
  split_ifs at h <;> cases h
  · exact ⟨by simp [he0], by rw [List.head?_append_of_ne_nil _ he0]; exact heh,
      by rw [List.getLast?_append_of_ne_nil _ hn0]; exact hnl⟩
  · exact ⟨by simp [hn0], by rw [List.head?_append_of_ne_nil _ hn0]; exact hnh,
      by rw [List.getLast?_append_of_ne_nil _ he0]; exact hel⟩
  · exact ⟨by simp [he0], by rw [List.head?_append_of_ne_nil _ he0]; exact heh,
      by rw [List.getLast?_append_of_ne_nil _ hrev0, List.getLast?_reverse]; exact hnh⟩
  · exact ⟨by simp [hrev0], by rw [List.head?_append_of_ne_nil _ hrev0, List.head?_reverse]; exact hnl,
      by rw [List.getLast?_append_of_ne_nil _ he0]; exact hel⟩

/-- A merge pass step keeps the invariant for every road in the list. -/
lemma WFRoad_mergeStep {new_road : Road} {l : List Road}
    (hn : WFRoad new_road) (hl : ∀ r ∈ l, WFRoad r) :
    ∀ r ∈ mergeStep l new_road, WFRoad r := by
  intro r hr
  unfold mergeStep at hr
  cases hm : merge_road_into_list new_road l with
  | none =>
    rw [hm] at hr
    rcases List.mem_append.mp hr with hr' | hr'
    · exact hl r hr'
    · rw [List.mem_singleton.mp hr']; exact hn
  | some l' =>
    rw [hm] at hr
    obtain ⟨i, hi, m, htm, hset⟩ := merge_some_spec new_road l l' hm
    rw [hset] at hr
    rcases List.mem_or_eq_of_mem_set hr with hr' | rfl
    · exact hl r hr'
    · exact WFRoad_tryMerge hn (hl _ (List.get_mem l i hi)) htm

/-- The roads built by `processRoads` from a nonempty geometry satisfy the
invariant. -/
lemma WFRoad_mk (t : ℚ) (c : String) (p : Point) (ps : List Point) :
    WFRoad ⟨p, (p :: ps).getLast (List.cons_ne_nil p ps), t, p :: ps, c⟩ :=
  ⟨List.cons_ne_nil p ps, rfl, List.getLast?_eq_getLast _ (List.cons_ne_nil p ps)⟩

/-- The invariant holds for every road in both accumulation lists throughout
`processRoadsAux`. -/
lemma WFRoad_processRoadsAux :
    ∀ (elems : List HighwayElem) (black white b w : List Road),
      (∀ r ∈ black, WFRoad r) → (∀ r ∈ white, WFRoad r) →
      processRoadsAux elems black white = some (b, w) →
      (∀ r ∈ b, WFRoad r) ∧ (∀ r ∈ w, WFRoad r)
  | [], black, white, b, w, hb, hw, h => by
    unfold processRoadsAux at h
    simp at h
    obtain ⟨rfl, rfl⟩ := h
    exact ⟨hb, hw⟩
  | e :: rest, black, white, b, w, hb, hw, h => by
    unfold processRoadsAux at h
    cases hp : e.projected with
    | none => rw [hp] at h; exact absurd h (by simp)
    | some geom =>
      rw [hp] at h
      dsimp only at h
      by_cases h0 : set_road_width e.highway = 0
      · rw [if_pos h0] at h
        exact WFRoad_processRoadsAux rest black white b w hb hw h
      · rw [if_neg h0] at h
        cases geom with
        | nil => exact absurd h (by simp)
        | cons p ps =>
          dsimp only at h
          exact WFRoad_processRoadsAux rest _ _ b w
            (WFRoad_mergeStep (WFRoad_mk _ _ p ps) hb)
            (WFRoad_mergeStep (WFRoad_mk _ _ p ps) hw) h

/-- The interleaved loop of `processRoads` is the pair of independent
per-style accumulation folds over the expanded fragments. -/
lemma processRoadsAux_eq :
    ∀ (elems : List HighwayElem) (black white : List Road),
      processRoadsAux elems black white =
        (expandList elems).map (fun prs =>
          ((prs.map Prod.fst).foldl mergeStep black,
           (prs.map Prod.snd).foldl mergeStep white))
  | [], black, white => rfl
  | e :: rest, black, white => by
    unfold processRoadsAux expandList expandElem
    cases hp : e.projected with
    | none => rfl
    | some geom =>
      dsimp only
      by_cases h0 : set_road_width e.highway = 0
      · rw [if_pos h0, if_pos h0, processRoadsAux_eq rest black white]
      · rw [if_neg h0, if_neg h0]
        cases geom with
        | nil => rfl
        | cons p ps =>
          dsimp only
          rw [processRoadsAux_eq rest]
          cases expandList rest <;> simp

/-- Rounding to 3 decimal places is idempotent. -/
lemma round3_round3 (q : ℚ) : round3 (round3 q) = round3 q := by
  unfold round3
  rw [div_mul_cancel₀ _ (by norm_num : (1000 : ℚ) ≠ 0), round_intCast]

/-! ## Claim theorems -/

/-- C2: in `processRoads`, a highway element whose projected geometry has
zero nodes reaches `geom[0]` and raises IndexError (modelled as `none`):
the run aborts instead of skipping the fragment. -/
theorem processRoads_raises_on_empty_geometry :
    processRoads [⟨"residential", some []⟩] = none := by decide

/-- C5: a new segment never merges into a list whose segments all have a
different thickness: the merge call reports `False` (leaving every entry
untouched) and the caller appends the new segment as a standalone entry. -/
theorem thickness_partition (t1 t2 : ℚ) (hne : t1 ≠ t2) (new_road : Road)
    (l : List Road) (hnew : new_road.thickness = t1)
    (hl : ∀ r ∈ l, r.thickness = t2) :
    merge_road_into_list new_road l = none ∧ mergeStep l new_road = l ++ [new_road] := by
  have hm : merge_road_into_list new_road l = none := by
    induction l with
    | nil => rfl
    | cons a as ih =>
      have ha : a.thickness ≠ new_road.thickness := by
        rw [hl a (by simp), hnew]
        exact Ne.symm hne
      have hta : tryMergeRoad new_road a = none := by
        unfold tryMergeRoad
        rw [if_pos ha]
      simp [merge_road_into_list, hta, ih (fun r hr => hl r (by simp [hr]))]
  exact ⟨hm, by simp [mergeStep, hm]⟩

theorem thickness_partition_witness :
    merge_road_into_list ⟨(0, 0), (1, 0), 1, [(0, 0), (1, 0)], "black"⟩
        [⟨(1, 0), (2, 0), 2, [(1, 0), (2, 0)], "black"⟩] = none ∧
      mergeStep [⟨(1, 0), (2, 0), 2, [(1, 0), (2, 0)], "black"⟩]
          ⟨(0, 0), (1, 0), 1, [(0, 0), (1, 0)], "black"⟩ =
        [⟨(1, 0), (2, 0), 2, [(1, 0), (2, 0)], "black"⟩] ++
          [⟨(0, 0), (1, 0), 1, [(0, 0), (1, 0)], "black"⟩] :=
  thickness_partition 1 2 (by norm_num) _ _ rfl (by decide)

/-- C10: a `False` return of `merge_road_into_list` means no entry matched
(so nothing was mutated), and a `True` return mutates exactly one existing
entry — the first match — leaving the list length and every other position
unchanged, without inserting the new segment. -/
theorem merge_frame (new_road : Road) (l : List Road) :
    (merge_road_into_list new_road l = none →
      ∀ r ∈ l, tryMergeRoad new_road r = none) ∧
    (∀ l', merge_road_into_list new_road l = some l' →
      ∃ i, ∃ hi : i < l.length, ∃ m,
        tryMergeRoad new_road (l.get ⟨i, hi⟩) = some m ∧
        l' = l.set i m ∧ l'.length = l.length ∧
        ∀ j, j ≠ i → l'[j]? = l[j]?) := by
  refine ⟨merge_none_spec new_road l, fun l' h => ?_⟩
  obtain ⟨i, hi, m, htm, hset⟩ := merge_some_spec new_road l l' h
  exact ⟨i, hi, m, htm, hset, by rw [hset]; exact l.length_set i m,
    fun j hj => by rw [hset]; exact List.getElem?_set_ne (Ne.symm hj)⟩

theorem merge_frame_witness :
    ∃ i, ∃ hi : i < ([⟨(1, 0), (2, 0), 1, [(1, 0), (2, 0)], "black"⟩] : List Road).length,
      ∃ m, tryMergeRoad ⟨(2, 0), (3, 0), 1, [(2, 0), (3, 0)], "black"⟩
          (([⟨(1, 0), (2, 0), 1, [(1, 0), (2, 0)], "black"⟩] : List Road).get ⟨i, hi⟩) = some m ∧
        [(⟨(1, 0), (3, 0), 1, [(1, 0), (2, 0), (2, 0), (3, 0)], "black"⟩ : Road)] =
          ([⟨(1, 0), (2, 0), 1, [(1, 0), (2, 0)], "black"⟩] : List Road).set i m ∧
        ([(⟨(1, 0), (3, 0), 1, [(1, 0), (2, 0), (2, 0), (3, 0)], "black"⟩ : Road)]).length =
          ([⟨(1, 0), (2, 0), 1, [(1, 0), (2, 0)], "black"⟩] : List Road).length ∧
        ∀ j, j ≠ i →
          ([(⟨(1, 0), (3, 0), 1, [(1, 0), (2, 0), (2, 0), (3, 0)], "black"⟩ : Road)])[j]? =
            ([⟨(1, 0), (2, 0), 1, [(1, 0), (2, 0)], "black"⟩] : List Road)[j]? :=
  (merge_frame ⟨(2, 0), (3, 0), 1, [(2, 0), (3, 0)], "black"⟩
      [⟨(1, 0), (2, 0), 1, [(1, 0), (2, 0)], "black"⟩]).2
    [⟨(1, 0), (3, 0), 1, [(1, 0), (2, 0), (2, 0), (3, 0)], "black"⟩] (by decide)

/-- C3 (counterexample): the merged node sequence is the plain concatenation,
so the shared point appears twice — refuting "containing no duplicate of the
shared point". -/
theorem merge_forward_chain_duplicates_shared_point :
    ¬ (∀ A B : Road, A.thickness = B.thickness → B.start = A.end_ →
        ∀ r ∈ accumulateRoads [A, B], r.nodes.count A.end_ ≤ 1) := by
  intro h
  have hc := h ⟨(0, 0), (1, 0), 1, [(0, 0), (1, 0)], "black"⟩
    ⟨(1, 0), (2, 0), 1, [(1, 0), (2, 0)], "black"⟩ rfl rfl
    ⟨(0, 0), (2, 0), 1, [(0, 0), (1, 0), (1, 0), (2, 0)], "black"⟩ (by decide)
  exact absurd hc (by decide)

/-- C3 (amended): for fragments A, B with `A.end = B.start` and equal
thickness, processing A then B from an empty list yields exactly one segment
whose nodes are the concatenation `A.nodes ++ B.nodes` (the shared point kept
from both sides) and whose end is `B.end`. -/
theorem merge_forward_chain (A B : Road) (hT : A.thickness = B.thickness)
    (hE : B.start = A.end_) :
    accumulateRoads [A, B] =
      [{ A with nodes := A.nodes ++ B.nodes, end_ := B.end_ }] := by
  simp [accumulateRoads, mergeStep, merge_road_into_list, tryMergeRoad, hT, hE]

theorem merge_forward_chain_witness :
    accumulateRoads [⟨(0, 0), (1, 0), 1, [(0, 0), (1, 0)], "black"⟩,
        ⟨(1, 0), (2, 0), 1, [(1, 0), (2, 0)], "black"⟩] =
      [{ (⟨(0, 0), (1, 0), 1, [(0, 0), (1, 0)], "black"⟩ : Road) with
          nodes := [(0, 0), (1, 0)] ++ [(1, 0), (2, 0)], end_ := (2, 0) }] :=
  merge_forward_chain _ _ rfl rfl

/-- C8 (counterexample): when A is a closed loop (`A.start = A.end`), a
fragment B with `B.end = A.end` hits the higher-precedence prepend case
instead of the reverse case: the result ends at `B.end`, not `B.start`, and
B's nodes are prepended forwards, not appended reversed. -/
theorem merge_reverse_match_cex :
    ¬ (∀ A B : Road, A.thickness = B.thickness → B.end_ = A.end_ →
        accumulateRoads [A, B] =
          [{ A with nodes := A.nodes ++ B.nodes.reverse, end_ := B.start }]) := by
  intro h
  have hc := h ⟨(1, 0), (1, 0), 1, [(1, 0), (5, 5), (1, 0)], "black"⟩
    ⟨(3, 0), (1, 0), 1, [(3, 0), (1, 0)], "black"⟩ rfl rfl
  exact absurd hc (by decide)

/-- C8 (amended): for fragments A, B with `B.end = A.end` and equal
thickness, when neither of the two higher-precedence cases applies
(`B.start ≠ A.end` and `B.end ≠ A.start`), processing A then B yields one
segment ending at `B.start` with B's nodes appended in reverse order. -/
theorem merge_reverse_match (A B : Road) (hT : A.thickness = B.thickness)
    (hEE : B.end_ = A.end_) (h1 : B.start ≠ A.end_) (h2 : B.end_ ≠ A.start) :
    accumulateRoads [A, B] =
      [{ A with nodes := A.nodes ++ B.nodes.reverse, end_ := B.start }] := by
  have h2' : A.end_ ≠ A.start := hEE ▸ h2
  simp [accumulateRoads, mergeStep, merge_road_into_list, tryMergeRoad, hT, hEE, h1, h2']

theorem merge_reverse_match_witness :
    accumulateRoads [⟨(0, 0), (1, 0), 1, [(0, 0), (1, 0)], "black"⟩,
        ⟨(2, 0), (1, 0), 1, [(2, 0), (1, 0)], "black"⟩] =
      [{ (⟨(0, 0), (1, 0), 1, [(0, 0), (1, 0)], "black"⟩ : Road) with
          nodes := [(0, 0), (1, 0)] ++ ([(2, 0), (1, 0)] : List Point).reverse,
          end_ := (2, 0) }] :=
  merge_reverse_match _ _ rfl rfl (by decide) (by decide)

/-- C1 (counterexample): the same three same-thickness chain fragments
P1→P2, P2→P3, P0→P1 collapse to one segment in order [A, B, C] but leave two
segments in order [B, C, A]: merge outcome is not permutation-invariant. -/
theorem merge_not_permutation_invariant :
    (accumulateRoads [⟨(1, 0), (2, 0), 1, [(1, 0), (2, 0)], "black"⟩,
        ⟨(2, 0), (3, 0), 1, [(2, 0), (3, 0)], "black"⟩,
        ⟨(0, 0), (1, 0), 1, [(0, 0), (1, 0)], "black"⟩]).length = 1 ∧
    (accumulateRoads [⟨(2, 0), (3, 0), 1, [(2, 0), (3, 0)], "black"⟩,
        ⟨(0, 0), (1, 0), 1, [(0, 0), (1, 0)], "black"⟩,
        ⟨(1, 0), (2, 0), 1, [(1, 0), (2, 0)], "black"⟩]).length = 2 := by
  decide

/-- C1 (amended): for a three-fragment chain P0→P1→P2→P3 of one thickness,
an order in which every new fragment is endpoint-adjacent to the accumulated
segment ([P1P2, P2P3, P0P1]) converges to a single chain, but the order
[P2P3, P0P1, P1P2] ends with two segments: a fragment merges into only the
first matching accumulated entry and accumulated segments are never joined
with each other, so convergence depends on the processing order. -/
theorem merge_chain_order_dependence (p0 p1 p2 p3 : Point) (t : ℚ) (c : String)
    (n1 n2 n3 : List Point) (h03 : p0 ≠ p3) (h12 : p1 ≠ p2) (h13 : p1 ≠ p3)
    (h02 : p0 ≠ p2) :
    (accumulateRoads [⟨p1, p2, t, n1, c⟩, ⟨p2, p3, t, n2, c⟩,
        ⟨p0, p1, t, n3, c⟩]).length = 1 ∧
    (accumulateRoads [⟨p2, p3, t, n2, c⟩, ⟨p0, p1, t, n3, c⟩,
        ⟨p1, p2, t, n1, c⟩]).length = 2 := by
  constructor <;>
    simp [accumulateRoads, mergeStep, merge_road_into_list, tryMergeRoad,
      h03, h12, h13, h02]

theorem merge_chain_order_dependence_witness :
    (accumulateRoads [⟨(10, 0), (20, 0), 5, [(10, 0), (20, 0)], "w"⟩,
        ⟨(20, 0), (30, 0), 5, [(20, 0), (30, 0)], "w"⟩,
        ⟨(0, 0), (10, 0), 5, [(0, 0), (10, 0)], "w"⟩]).length = 1 ∧
    (accumulateRoads [⟨(20, 0), (30, 0), 5, [(20, 0), (30, 0)], "w"⟩,
        ⟨(0, 0), (10, 0), 5, [(0, 0), (10, 0)], "w"⟩,
        ⟨(10, 0), (20, 0), 5, [(10, 0), (20, 0)], "w"⟩]).length = 2 :=
  merge_chain_order_dependence (0, 0) (10, 0) (20, 0) (30, 0) 5 "w" _ _ _
    (by decide) (by decide) (by decide) (by decide)

lemma set_road_width_residential : set_road_width "residential" = 1 := by decide

/-- C4: the `Road` invariant — `nodes` nonempty with `nodes[0] = start` and
`nodes[-1] = end` — holds for every segment created by `processRoads`, is
preserved by each of the four merge-case mutations, and consequently holds
for every segment in the returned accumulation lists. -/
theorem road_endpoint_invariant :
    (∀ (t : ℚ) (c : String) (p : Point) (ps : List Point),
        WFRoad ⟨p, (p :: ps).getLast (List.cons_ne_nil p ps), t, p :: ps, c⟩) ∧
    (∀ new_road existing merged : Road, WFRoad new_road → WFRoad existing →
        tryMergeRoad new_road existing = some merged → WFRoad merged) ∧
    (∀ (elems : List HighwayElem) (roads : List Road),
        processRoads elems = some roads → ∀ r ∈ roads, WFRoad r) := by
  refine ⟨WFRoad_mk, fun a b m ha hb h => WFRoad_tryMerge ha hb h,
    fun elems roads h r hr => ?_⟩
  unfold processRoads at h
  cases ha : processRoadsAux elems [] [] with
  | none => rw [ha] at h; exact absurd h (by simp)
  | some bw =>
    rw [ha] at h
    simp at h
    obtain ⟨hb, hw⟩ := WFRoad_processRoadsAux elems [] [] bw.1 bw.2
      (by simp) (by simp) (by rw [ha])
    rw [← h] at hr
    rcases List.mem_append.mp hr with h' | h'
    · exact hb r h'
    · exact hw r h'

theorem road_endpoint_invariant_witness :
    WFRoad ⟨(0, 0), (1, 1), 1, [(0, 0), (1, 1)], "black"⟩ :=
  road_endpoint_invariant.2.2 [⟨"residential", some [(0, 0), (1, 1)]⟩]
    [⟨(0, 0), (1, 1), 1, [(0, 0), (1, 1)], "black"⟩,
     ⟨(0, 0), (1, 1), 0.7, [(0, 0), (1, 1)], "white"⟩]
    (by norm_num [processRoads, processRoadsAux, mergeStep, merge_road_into_list,
      tryMergeRoad, set_road_width_residential, pymax])
    _ (by decide)

/-- C9: a successful `processRoads` run returns the wide-style ("black")
accumulation list concatenated with the inset-style ("white") accumulation
list, each equal to an independent single-style merge pass over the expanded
fragments in input order. -/
theorem processRoads_black_then_white (elems : List HighwayElem) (roads : List Road)
    (h : processRoads elems = some roads) :
    ∃ pairs : List (Road × Road), expandList elems = some pairs ∧
      roads = accumulateRoads (pairs.map Prod.fst) ++
        accumulateRoads (pairs.map Prod.snd) := by
  unfold processRoads at h
  rw [processRoadsAux_eq] at h
  cases hE : expandList elems with
  | none => rw [hE] at h; exact absurd h (by simp)
  | some pairs =>
    rw [hE] at h
    simp at h
    exact ⟨pairs, rfl, by unfold accumulateRoads; exact h.symm⟩

theorem processRoads_black_then_white_witness :
    ∃ pairs : List (Road × Road),
      expandList [⟨"residential", some [(0, 0), (1, 1)]⟩] = some pairs ∧
      [(⟨(0, 0), (1, 1), 1, [(0, 0), (1, 1)], "black"⟩ : Road),
       ⟨(0, 0), (1, 1), 0.7, [(0, 0), (1, 1)], "white"⟩] =
        accumulateRoads (pairs.map Prod.fst) ++
          accumulateRoads (pairs.map Prod.snd) :=
  processRoads_black_then_white _ _
    (by norm_num [processRoads, processRoadsAux, mergeStep, merge_road_into_list,
      tryMergeRoad, set_road_width_residential, pymax])

/-- C6 (counterexample): the marker coordinates written by `citiesToSVG` are
computed with the projection formula but are not rounded: at latitude
50.1026225 the y value is -0.6371, which is not a 3-decimal-rounded value. -/
theorem city_marker_unrounded :
    ¬ IsRound3 (cityPoint 1 50.1026225 12).2 := by
  norm_num [IsRound3, cityPoint, round3, lat0, Rearth, SCALE, round_eq]

/-- C6 (amended): every planar coordinate produced by the `fetchAll`
projection is rounded to 3 decimal places before being returned (rounding a
projected coordinate again leaves it unchanged); the city-marker coordinates
of `citiesToSVG` use the same formula without the rounding. -/
theorem projection_rounded_3dp (cosLat0 lat lon : ℚ) :
    IsRound3 (projectPoint cosLat0 lat lon).1 ∧
    IsRound3 (projectPoint cosLat0 lat lon).2 :=
  ⟨round3_round3 _, round3_round3 _⟩

/-- C7: the band of a place whose minimum reference distance is exactly one
band width is `floor(w / w) = 1`, which is odd, so the place receives the
second of the two alternating colors (5.0 km with a 5 km band width in the
observed configuration). -/
theorem place_banding_floor (d0 w : ℚ) (ds : List ℚ) (hw : 0 < w)
    (hmin : nearestDistance d0 ds = w) (first second : String) :
    band (nearestDistance d0 ds) w = 1 ∧
    bandColor first second (band (nearestDistance d0 ds) w) = second := by
  have hb : band (nearestDistance d0 ds) w = 1 := by
    rw [hmin]
    unfold band
    rw [div_self (ne_of_gt hw)]
    exact Int.floor_one
  exact ⟨hb, by rw [hb]; rfl⟩

theorem place_banding_floor_witness :
    band (nearestDistance 7 [5, 12]) 5 = 1 ∧
    bandColor "pink" "blue" (band (nearestDistance 7 [5, 12]) 5) = "blue" :=
  place_banding_floor 7 5 [5, 12] (by norm_num)
    (by norm_num [nearestDistance]) "pink" "blue"

end CoordsToSVGMap
